import Mathlib

/-!
Verification development for a small SQLite-backed user-account store
(`user_management.py`).  The store is modelled shallowly: the `users`
table is a list of rows in storage (insertion) order, SQL statements are
given an explicit small-step semantics (`execStmt`), and the five
operations of `UserManager` are translated method by method.  Password
hashing (`hashlib.sha256(...).hexdigest()`) is modelled by a full
executable SHA-256 over the UTF-8 bytes of the password, serialised as a
lower-case hexadecimal string.
-/

namespace UserManagement

/-! ### SHA-256 over byte lists (bytes are `Nat` values below 256) -/

/-- Right rotation of a 32-bit word represented as a `Nat`. -/
def rotr (k n : Nat) : Nat := n / 2 ^ k + n % 2 ^ k * 2 ^ (32 - k)

/-- Logical right shift of a 32-bit word. -/
def shiftr (k n : Nat) : Nat := n / 2 ^ k

/-- Bitwise complement on 32 bits. -/
def bnot32 (n : Nat) : Nat := n ^^^ 4294967295

/-- The big sigma-0 mixing function of SHA-256. -/
def bigSigma0 (n : Nat) : Nat := rotr 2 n ^^^ rotr 13 n ^^^ rotr 22 n

/-- The big sigma-1 mixing function of SHA-256. -/
def bigSigma1 (n : Nat) : Nat := rotr 6 n ^^^ rotr 11 n ^^^ rotr 25 n

/-- The small sigma-0 message-schedule function of SHA-256. -/
def smallSigma0 (n : Nat) : Nat := rotr 7 n ^^^ rotr 18 n ^^^ shiftr 3 n

/-- The small sigma-1 message-schedule function of SHA-256. -/
def smallSigma1 (n : Nat) : Nat := rotr 17 n ^^^ rotr 19 n ^^^ shiftr 10 n

/-- The choice function of SHA-256. -/
def chf (x y z : Nat) : Nat := (x &&& y) ^^^ (bnot32 x &&& z)

/-- The majority function of SHA-256. -/
def majf (x y z : Nat) : Nat := (x &&& y) ^^^ (x &&& z) ^^^ (y &&& z)

/-- The 64 round constants of SHA-256 (FIPS 180-4, in decimal). -/
def shaK : List Nat :=
  [1116352408, 1899447441, 3049323471, 3921009573, 961987163, 1508970993,
   2453635748, 2870763221, 3624381080, 310598401, 607225278, 1426881987,
   1925078388, 2162078206, 2614888103, 3248222580, 3835390401, 4022224774,
   264347078, 604807628, 770255983, 1249150122, 1555081692, 1996064986,
   2554220882, 2821834349, 2952996808, 3210313671, 3336571891, 3584528711,
   113926993, 338241895, 666307205, 773529912, 1294757372, 1396182291,
   1695183700, 1986661051, 2177026350, 2456956037, 2730485921, 2820302411,
   3259730800, 3345764771, 3516065817, 3600352804, 4094571909, 275423344,
   430227734, 506948616, 659060556, 883997877, 958139571, 1322822218,
   1537002063, 1747873779, 1955562222, 2024104815, 2227730452, 2361852424,
   2428436474, 2756734187, 3204031479, 3329325298]

/-- The eight-word working state of the SHA-256 compression function. -/
structure Hash8 where
  a : Nat
  b : Nat
  c : Nat
  d : Nat
  e : Nat
  f : Nat
  g : Nat
  h : Nat
deriving DecidableEq

/-- The initial hash value of SHA-256 (FIPS 180-4, in decimal). -/
def initH : Hash8 :=
  ⟨1779033703, 3144134277, 1013904242, 2773480762,
   1359893119, 2600822924, 528734635, 1541459225⟩

/-- One round of the SHA-256 compression function; `kw` packs the round
constant with the scheduled message word. -/
def stepComp (kw : Nat × Nat) (s : Hash8) : Hash8 :=
  let t1 := (s.h + bigSigma1 s.e + chf s.e s.f s.g + kw.1 + kw.2) % 2 ^ 32
  let t2 := (bigSigma0 s.a + majf s.a s.b s.c) % 2 ^ 32
  ⟨(t1 + t2) % 2 ^ 32, s.a, s.b, s.c, (s.d + t1) % 2 ^ 32, s.e, s.f, s.g⟩

/-- Group a byte list into big-endian 32-bit words. -/
def bytesToWords : List Nat → List Nat
  | a :: b :: c :: d :: rest => (((a * 256 + b) * 256 + c) * 256 + d) :: bytesToWords rest
  | _ => []

/-- Extend a 16-word block to the full 64-word message schedule; the
`Nat` argument counts the words still to be appended. -/
def extendW (w : List Nat) : Nat → List Nat
  | 0 => w
  | Nat.succ k =>
      let i := w.length
      let x := (smallSigma1 (w.getD (i - 2) 0) + w.getD (i - 7) 0 +
                smallSigma0 (w.getD (i - 15) 0) + w.getD (i - 16) 0) % 2 ^ 32
      extendW (w ++ [x]) k

/-- Split a byte list into 64-byte blocks; the fuel argument (at least
the list length) makes the recursion structural. -/
def toBlocksAux : Nat → List Nat → List (List Nat)
  | 0, _ => []
  | Nat.succ _, [] => []
  | Nat.succ k, b :: bs => List.take 64 (b :: bs) :: toBlocksAux k (List.drop 64 (b :: bs))

/-- Split a byte list into 64-byte blocks. -/
def toBlocks (l : List Nat) : List (List Nat) := toBlocksAux l.length l

/-- Big-endian byte serialisation of `n` on `k` bytes. -/
def beBytes : Nat → Nat → List Nat
  | 0, _ => []
  | Nat.succ k, n => beBytes k (n / 256) ++ [n % 256]

/-- SHA-256 padding: append `0x80`, zeros up to 56 mod 64, then the
bit length on eight big-endian bytes. -/
def padMsg (m : List Nat) : List Nat :=
  m ++ 128 :: (List.replicate ((56 + 64 - (m.length + 1) % 64) % 64) 0 ++ beBytes 8 (m.length * 8))

/-- Process one 64-byte block: run the 64 compression rounds and add the
result to the incoming hash value, word by word, mod 2^32. -/
def processBlock (hv : Hash8) (block : List Nat) : Hash8 :=
  let w := extendW (bytesToWords block) 48
  let s := List.foldl (fun st kw => stepComp kw st) hv (List.zip shaK w)
  ⟨(hv.a + s.a) % 2 ^ 32, (hv.b + s.b) % 2 ^ 32, (hv.c + s.c) % 2 ^ 32, (hv.d + s.d) % 2 ^ 32,
   (hv.e + s.e) % 2 ^ 32, (hv.f + s.f) % 2 ^ 32, (hv.g + s.g) % 2 ^ 32, (hv.h + s.h) % 2 ^ 32⟩

/-- SHA-256 of a byte list, as the 32-byte big-endian digest. -/
def sha256 (m : List Nat) : List Nat :=
  let fin := List.foldl processBlock initH (toBlocks (padMsg m))
  beBytes 4 fin.a ++ beBytes 4 fin.b ++ beBytes 4 fin.c ++ beBytes 4 fin.d ++
  beBytes 4 fin.e ++ beBytes 4 fin.f ++ beBytes 4 fin.g ++ beBytes 4 fin.h

/-! ### Lower-case hexadecimal serialisation and UTF-8 encoding -/

/-- The hexadecimal digit character of `n % 16`; `Nat.digitChar` yields
exactly the lower-case alphabet 0-9 a-f on inputs below 16. -/
def hexDigit (n : Nat) : Char := Nat.digitChar (n % 16)

/-- Two lower-case hexadecimal characters per byte, as in Python
`bytes.hex()` / `hashlib.hexdigest()`. -/
def hexOfBytes : List Nat → List Char
  | [] => []
  | b :: bs => hexDigit (b / 16) :: hexDigit (b % 16) :: hexOfBytes bs

/-- UTF-8 encoding of a single code point. -/
def utf8Char (n : Nat) : List Nat :=
  if n < 128 then [n]
  else if n < 2048 then [192 + n / 64, 128 + n % 64]
  else if n < 65536 then [224 + n / 4096, 128 + n / 64 % 64, 128 + n % 64]
  else [240 + n / 262144, 128 + n / 4096 % 64, 128 + n / 64 % 64, 128 + n % 64]

/-- UTF-8 encoding of a string, as `str.encode()` produces in Python. -/
def utf8Encode (s : String) : List Nat :=
  s.data.foldr (fun c acc => utf8Char c.toNat ++ acc) []

/-- Translation of `UserManager.hash_password`: the lower-case hex
SHA-256 digest of the UTF-8 encoded password. -/
def hash_password (p : String) : String :=
  String.mk (hexOfBytes (sha256 (utf8Encode p)))

/-! ### The users table and the SQL statement semantics

A row of the `users` table.  The `password` column stores the hex
digest, never the plaintext; `id` is the integer primary key that
SQLite assigns as max existing id + 1. -/

structure Row where
  id : Nat
  username : String
  password : String
  email : String
  is_admin : Bool
deriving DecidableEq

/-- The `users` table, rows in storage (insertion) order. -/
abbrev Table := List Row

/-- ASCII lower-casing of one character; SQLite default `LIKE` folds
case for the ASCII range only. -/
def lowerA (c : Char) : Char :=
  if 'A' ≤ c ∧ c ≤ 'Z' then Char.ofNat (c.toNat + 32) else c

/-- All suffixes of a list, longest first. -/
def suffixes : List Char → List (List Char)
  | [] => [[]]
  | c :: xs => (c :: xs) :: suffixes xs

/-- SQLite default `LIKE` pattern matching: percent matches any
character sequence (so the remaining pattern may resume at any suffix),
underscore matches exactly one character, and every other pattern
character matches ASCII-case-insensitively. -/
def likeMatch : List Char → List Char → Bool
  | [], [] => true
  | [], _ :: _ => false
  | p :: ps, s =>
      if p = '%' then
        (suffixes s).any (fun s2 => likeMatch ps s2)
      else
        match s with
        | [] => false
        | c :: s2 => (p == '_' || lowerA p == lowerA c) && likeMatch ps s2

/-- Outcome of executing one SQL statement. -/
inductive QRes where
  | rows (rs : List Row)
  | insertOk
  | integrityError
  | tableOk
deriving DecidableEq

/-- The SQL statements the five operations execute, with their bound
parameters (parameter binding means the strings below are compared as
literal data and never alter the statement structure). -/
inductive Stmt where
  | createUsersTable
  | selectAuth (u hpw : String)
  | selectPerm (u : String)
  | selectLike (pre : String)
  | insertUser (u hpw e : String) (a : Bool)

/-- Rows returned by a statement (empty for non-SELECT results). -/
def qrows : QRes → List Row
  | QRes.rows rs => rs
  | _ => []

/-- The next auto-assigned integer primary key. -/
def newId (t : Table) : Nat := List.foldr (fun r m => max r.id m) 0 t + 1

/-- Semantics of one SQL statement against the table.  SELECTs return
the matching rows and leave the table unchanged; INSERT appends a row
or reports an integrity error when the UNIQUE constraint on `username`
is violated (the only integrity constraint of this schema that a bound
insert can violate). -/
def execStmt (s : Stmt) (t : Table) : Table × QRes :=
  match s with
  | Stmt.createUsersTable => (t, QRes.tableOk)
  | Stmt.selectAuth u hpw =>
      (t, QRes.rows (t.filter (fun r => r.username == u && r.password == hpw)))
  | Stmt.selectPerm u =>
      (t, QRes.rows (t.filter (fun r => r.username == u)))
  | Stmt.selectLike pre =>
      (t, QRes.rows (t.filter (fun r => likeMatch (pre.data ++ [ '%' ]) r.username.data)))
  | Stmt.insertUser u hpw e a =>
      if t.any (fun r => r.username == u) then (t, QRes.integrityError)
      else (t ++ [⟨newId t, u, hpw, e, a⟩], QRes.insertOk)

/-! ### The five operations of `UserManager` -/

/-- Errors surfaced to callers; `notFound` models the `ValueError`
(spec: `NotFoundError`) raised by `get_user_permissions`. -/
inductive DBError where
  | notFound (u : String)
deriving DecidableEq

/-- Translation of `UserManager.setup_database`: `CREATE TABLE IF NOT
EXISTS users (...)`.  The store location either has no users table yet
(`none`) or already holds one. -/
def setup_database : Option Table → Option Table
  | none => some []
  | some t => some t

/-- Translation of `UserManager.authenticate_user`: one parameterized
SELECT for the username and the hash of the supplied password; true iff
`fetchone` finds a row. -/
def authenticate_user (t : Table) (u p : String) : Table × Bool :=
  let res := execStmt (Stmt.selectAuth u (hash_password p)) t
  (res.1, (qrows res.2).head?.isSome)

/-- Translation of `UserManager.get_user_permissions`: SELECT `is_admin`
for the username; raises (models `ValueError`) when `fetchone` returns
no row. -/
def get_user_permissions (t : Table) (u : String) : Table × Except DBError Bool :=
  let res := execStmt (Stmt.selectPerm u) t
  match (qrows res.2).head? with
  | none => (res.1, Except.error (DBError.notFound u))
  | some r => (res.1, Except.ok r.is_admin)

/-- Translation of `UserManager.find_users_by_prefix`: SELECT `username`
with the LIKE pattern `prefix || percent`, returning the usernames of
the matching rows in storage order. -/
def find_users_by_prefix (t : Table) (pre : String) : Table × List String :=
  let res := execStmt (Stmt.selectLike pre) t
  (res.1, (qrows res.2).map Row.username)

/-- Translation of `UserManager.create_user`: INSERT the row with the
hashed password and commit, returning true; an `IntegrityError` is
caught and turned into false. -/
def create_user (t : Table) (u p e : String) (a : Bool) : Table × Bool :=
  let hp := hash_password p
  let res := execStmt (Stmt.insertUser u hp e a) t
  match res.2 with
  | QRes.integrityError => (res.1, false)
  | _ => (res.1, true)

/-- Recogniser for lower-case hexadecimal characters. -/
def isHexLower (c : Char) : Bool :=
  ('0' ≤ c && c ≤ '9') || ('a' ≤ c && c ≤ 'f')

/-- The literal username of the classic injection attempt, spelled
admin-quote-space-OR-space-quote-1-quote-equals-quote-1. -/
def injectionName : String :=
  String.mk ['a', 'd', 'm', 'i', 'n', Char.ofNat 39, ' ', 'O', 'R', ' ',
             Char.ofNat 39, '1', Char.ofNat 39, '=', Char.ofNat 39, '1']

/-- The three-user table of the spec examples (passwords abbreviated;
no claim below depends on these password fields). -/
def demoTable : Table :=
  [⟨1, "john_doe", "x", "john@example.com", false⟩,
   ⟨2, "jane_smith", "x", "jane@example.com", false⟩,
   ⟨3, "admin", "x", "admin@example.com", true⟩]

/-! ### Helper lemmas: digest format -/

/-- The SHA-256 implementation agrees with the official test vector for
the message abc. -/
theorem sha256_test_vector : hash_password "abc" =
    "ba7816bf8f01cfea414140de5dae2223b00361a396177a9cb410ff61f20015ad" := by decide

lemma beBytes_length (k : Nat) : ∀ n, (beBytes k n).length = k := by
  induction k with
  | zero => intro n; rfl
  | succ k ih => intro n; simp [beBytes, ih]

lemma sha256_length (m : List Nat) : (sha256 m).length = 32 := by
  simp [sha256, beBytes_length]

lemma hexOfBytes_length (l : List Nat) : (hexOfBytes l).length = 2 * l.length := by
  induction l with
  | nil => rfl
  | cons b bs ih => simp [hexOfBytes, ih]; omega

lemma hexDigit_isHexLower (n : Nat) : isHexLower (hexDigit n) = true := by
  have h : n % 16 < 16 := Nat.mod_lt _ (by norm_num)
  unfold hexDigit
  revert h
  generalize n % 16 = m
  intro h
  interval_cases m <;> rfl

lemma hexOfBytes_isHexLower (l : List Nat) : ∀ c ∈ hexOfBytes l, isHexLower c = true := by
  induction l with
  | nil => intro c hc; cases hc
  | cons b bs ih =>
    intro c hc
    rcases hc with _ | ⟨_, hc⟩
    · exact hexDigit_isHexLower _
    · rcases hc with _ | ⟨_, hc⟩
      · exact hexDigit_isHexLower _
      · exact ih c hc

lemma hash_password_length (p : String) : (hash_password p).length = 64 := by
  show (hexOfBytes (sha256 (utf8Encode p))).length = 64
  rw [hexOfBytes_length, sha256_length]

lemma hash_password_isHexLower (p : String) :
    ∀ c ∈ (hash_password p).data, isHexLower c = true :=
  fun c hc => hexOfBytes_isHexLower _ c hc

/-! ### Helper lemmas: LIKE matching -/

lemma nil_mem_suffixes (s : List Char) : [] ∈ suffixes s := by
  induction s with
  | nil => simp [suffixes]
  | cons c xs ih => simpa [suffixes] using ih

lemma likeMatch_percent (s : List Char) : likeMatch [ '%' ] s = true := by
  simp [likeMatch, List.any_eq_true]
  exact ⟨[], nil_mem_suffixes s, rfl⟩

lemma likeMatch_literal (p : List Char) (hp : ∀ c ∈ p, c ≠ '%' ∧ c ≠ '_') :
    ∀ s, likeMatch (p ++ [ '%' ]) s = List.isPrefixOf (p.map lowerA) (s.map lowerA) := by
  induction p with
  | nil =>
    intro s
    simpa using likeMatch_percent s
  | cons a p2 ih =>
    intro s
    obtain ⟨ha1, ha2⟩ := hp a (List.mem_cons_self a p2)
    have hp2 : ∀ c ∈ p2, c ≠ '%' ∧ c ≠ '_' := fun c hc => hp c (List.mem_cons_of_mem a hc)
    cases s with
    | nil => simp [likeMatch, ha1, List.isPrefixOf]
    | cons c s2 =>
      have h2 : (a == '_') = false := by
        simp [ha2]
      simp [likeMatch, ha1, h2, List.isPrefixOf, ih hp2]

/-! ### Helper lemmas: the table -/

lemma filter_le_one (t : Table) (u : String) (q : Row → Bool)
    (hnd : (t.map Row.username).Nodup)
    (hq : ∀ r, q r = true → r.username = u) :
    (t.filter q).length ≤ 1 := by
  induction t with
  | nil => simp
  | cons r t ih =>
    rw [List.map_cons, List.nodup_cons] at hnd
    by_cases hr : q r = true
    · rw [List.filter_cons_of_pos hr]
      have hnil : t.filter q = [] := by
        rw [List.eq_nil_iff_forall_not_mem]
        intro x hx
        rw [List.mem_filter] at hx
        exact hnd.1 (((hq x hx.2).trans (hq r hr).symm) ▸ List.mem_map_of_mem Row.username hx.1)
      simp [hnil]
    · rw [List.filter_cons_of_neg (by simpa using hr)]
      exact ih hnd.2

lemma any_username_false (t : Table) (u : String) (h : ∀ r ∈ t, r.username ≠ u) :
    t.any (fun r => r.username == u) = false := by
  rw [List.any_eq_false]
  intro r hr
  simp [h r hr]

lemma head?_isSome_iff (l : List Row) : l.head?.isSome = true ↔ l ≠ [] := by
  cases l <;> simp

lemma create_user_success (t t2 : Table) (u p e : String) (a : Bool)
    (h : create_user t u p e a = (t2, true)) :
    t.any (fun r => r.username == u) = false ∧
      t2 = t ++ [⟨newId t, u, hash_password p, e, a⟩] := by
  by_cases hd : t.any (fun r => r.username == u) = true
  · exfalso
    simp [create_user, execStmt, hd] at h
  · rw [Bool.not_eq_true] at hd
    refine ⟨hd, ?_⟩
    simp [create_user, execStmt, hd] at h
    exact h.symm

lemma authenticate_absent (t : Table) (u p : String) (h : ∀ r ∈ t, r.username ≠ u) :
    (authenticate_user t u p).2 = false := by
  simp only [authenticate_user, execStmt, qrows]
  have hnil : t.filter (fun r => r.username == u && r.password == hash_password p) = [] := by
    rw [List.filter_eq_nil_iff]
    intro r hr
    simp [h r hr]
  simp [hnil]

/-! ### The claims -/

/-- C1 (counterexample): the claim that `find_users_by_prefix` returns
exactly the usernames starting (case-sensitively, literally) with the
prefix is false: the SQL LIKE match is ASCII-case-insensitive, so on a
store holding only the user John, the prefix j returns John even though
John does not start with j. -/
theorem find_like_counterexample :
    ( find_users_by_prefix (create_user [] "John" "pw" "j@x" false).1 "j").2 = ["John"]
    ∧ List.isPrefixOf "j".data "John".data = false := by
  constructor
  · decide
  · decide

/-- C1 (amended): `find_users_by_prefix` filters with the SQL LIKE
pattern prefix-then-percent.  For a prefix containing neither percent
nor underscore this is exactly ASCII-case-insensitive prefix matching of
usernames, returned in storage order (so it is the empty list, not an
error, when nothing matches); the empty prefix matches every username. -/
theorem find_like_spec :
    (∀ (t : Table) (pre : String), (∀ c ∈ pre.data, c ≠ '%' ∧ c ≠ '_') →
      ( find_users_by_prefix t pre).2
        = (t.filter (fun r =>
            List.isPrefixOf (pre.data.map lowerA) (r.username.data.map lowerA))).map Row.username)
    ∧ (∀ t : Table, ( find_users_by_prefix t "").2 = t.map Row.username) := by
  constructor
  · intro t pre hpre
    simp only [ find_users_by_prefix, execStmt, qrows]
    congr 1
    apply List.filter_congr
    intro r _
    exact likeMatch_literal pre.data hpre r.username.data
  · intro t
    simp only [ find_users_by_prefix, execStmt, qrows]
    have hall : t.filter (fun r => likeMatch ("".data ++ [ '%' ]) r.username.data) = t := by
      rw [List.filter_eq_self]
      intro r _
      exact likeMatch_percent r.username.data
    rw [hall]

/-- C1 (witness for the amended theorem) on the three-user table of the
spec example, with prefixes j and empty. -/
theorem find_like_spec_witness :
    ( find_users_by_prefix demoTable "j").2
      = (demoTable.filter (fun r =>
          List.isPrefixOf ("j".data.map lowerA) (r.username.data.map lowerA))).map Row.username
    ∧ ( find_users_by_prefix demoTable "").2 = demoTable.map Row.username :=
  ⟨find_like_spec.1 demoTable "j" (by decide), find_like_spec.2 demoTable⟩

/-- C2: `get_user_permissions` fails with the not-found error (never a
silent default) when no record has the username, and returns true for
the username of a successfully created admin user. -/
theorem get_permissions_spec :
    (∀ (t : Table) (u : String), (∀ r ∈ t, r.username ≠ u) →
      (get_user_permissions t u).2 = Except.error (DBError.notFound u))
    ∧ (∀ (t t2 : Table) (u p e : String), create_user t u p e true = (t2, true) →
      (get_user_permissions t2 u).2 = Except.ok true) := by
  constructor
  · intro t u h
    simp only [get_user_permissions, execStmt, qrows]
    have hnil : t.filter (fun r => r.username == u) = [] := by
      rw [List.filter_eq_nil_iff]
      intro r hr
      simp [h r hr]
    rw [hnil]
    rfl
  · intro t t2 u p e hc
    obtain ⟨hany, ht2⟩ := create_user_success t t2 u p e true hc
    have h : ∀ r ∈ t, r.username ≠ u := by
      intro r hr
      have := List.any_eq_false.mp hany r hr
      simpa using this
    subst ht2
    simp only [get_user_permissions, execStmt, qrows]
    rw [List.filter_append]
    have hnil : t.filter (fun r => r.username == u) = [] := by
      rw [List.filter_eq_nil_iff]
      intro r hr
      simp [h r hr]
    rw [hnil]
    simp

/-- C2 (witness): an empty store raises not-found for the nonexistent
user, and a freshly created admin user reads back as admin. -/
theorem get_permissions_spec_witness :
    (get_user_permissions [] "nonexistent").2 = Except.error (DBError.notFound "nonexistent")
    ∧ (get_user_permissions (create_user [] "root" "pw" "r@e" true).1 "root").2 = Except.ok true :=
  ⟨get_permissions_spec.1 [] "nonexistent" (by simp),
   get_permissions_spec.2 [] _ "root" "pw" "r@e" rfl⟩

/-- C3: on a table whose usernames are unique (the invariant the UNIQUE
constraint maintains), `authenticate_user` returns true iff exactly one
record matches both the username and the SHA-256 hash of the password;
and it returns false, rather than failing, whenever the username is
absent. -/
theorem authenticate_spec :
    ∀ (t : Table) (u p : String),
      ((t.map Row.username).Nodup →
        ((authenticate_user t u p).2 = true ↔
          (t.filter (fun r => r.username == u && r.password == hash_password p)).length = 1))
      ∧ ((∀ r ∈ t, r.username ≠ u) → (authenticate_user t u p).2 = false) := by
  intro t u p
  constructor
  · intro hnd
    simp only [authenticate_user, execStmt, qrows]
    have hle : (t.filter (fun r => r.username == u && r.password == hash_password p)).length ≤ 1 := by
      apply filter_le_one t u _ hnd
      intro r hr
      rw [Bool.and_eq_true] at hr
      exact beq_iff_eq.mp hr.1
    cases hfl : t.filter (fun r => r.username == u && r.password == hash_password p) with
    | nil => simp
    | cons x l =>
      rw [hfl] at hle
      have hl : l.length = 0 := by simpa using hle
      simp [hl]
  · exact authenticate_absent t u p

/-- C3 (witness): on the three-user demo table, authentication of a
present username is characterised by the one-matching-row count, and an
absent username authenticates to false. -/
theorem authenticate_spec_witness :
    ((authenticate_user demoTable "admin" "pw").2 = true ↔
      (demoTable.filter (fun r =>
        r.username == "admin" && r.password == hash_password "pw")).length = 1)
    ∧ (authenticate_user demoTable "zeta" "pw").2 = false :=
  ⟨(authenticate_spec demoTable "admin" "pw").1 (by decide),
   (authenticate_spec demoTable "zeta" "pw").2 (by decide)⟩

/-- C4: a successful `create_user` followed by `authenticate_user` with
the same username and password returns true. -/
theorem create_then_authenticate :
    ∀ (t t2 : Table) (u p e : String) (a : Bool),
      create_user t u p e a = (t2, true) → (authenticate_user t2 u p).2 = true := by
  intro t t2 u p e a hc
  obtain ⟨hany, ht2⟩ := create_user_success t t2 u p e a hc
  subst ht2
  simp only [authenticate_user, execStmt, qrows]
  rw [List.filter_append, head?_isSome_iff]
  simp

/-- C4 (witness): creating bob and authenticating bob with the same
password succeeds. -/
theorem create_then_authenticate_witness :
    (authenticate_user (create_user [] "bob" "hunter2" "b@e" false).1 "bob" "hunter2").2 = true :=
  create_then_authenticate [] _ "bob" "hunter2" "b@e" false rfl

/-- C5: creating the same (previously absent) username twice returns
true then false, with no exception, leaves the table of the first
creation unchanged, and the final table holds exactly one record with
that username. -/
theorem duplicate_create_spec :
    ∀ (t : Table) (u p1 e1 p2 e2 : String) (a1 a2 : Bool), (∀ r ∈ t, r.username ≠ u) →
      (create_user t u p1 e1 a1).2 = true
      ∧ (create_user (create_user t u p1 e1 a1).1 u p2 e2 a2).2 = false
      ∧ (create_user (create_user t u p1 e1 a1).1 u p2 e2 a2).1 = (create_user t u p1 e1 a1).1
      ∧ ((create_user (create_user t u p1 e1 a1).1 u p2 e2 a2).1.filter
          (fun r => r.username == u)).length = 1 := by
  intro t u p1 e1 p2 e2 a1 a2 h
  have hany := any_username_false t u h
  have h1 : create_user t u p1 e1 a1 = (t ++ [⟨newId t, u, hash_password p1, e1, a1⟩], true) := by
    simp [create_user, execStmt, hany]
  have h1' : (create_user t u p1 e1 a1).1 = t ++ [⟨newId t, u, hash_password p1, e1, a1⟩] := by
    rw [h1]
  have hany2 : (t ++ [⟨newId t, u, hash_password p1, e1, a1⟩] : Table).any
      (fun r => r.username == u) = true := by
    refine List.any_eq_true.mpr ⟨⟨newId t, u, hash_password p1, e1, a1⟩, ?_, ?_⟩
    · simp
    · simp
  have h2 : create_user (t ++ [⟨newId t, u, hash_password p1, e1, a1⟩]) u p2 e2 a2
      = (t ++ [⟨newId t, u, hash_password p1, e1, a1⟩], false) := by
    simp [create_user, execStmt, hany2]
  refine ⟨by rw [h1], by rw [h1', h2], by rw [h1', h2], ?_⟩
  rw [h1', h2]
  show ((t ++ [(⟨newId t, u, hash_password p1, e1, a1⟩ : Row)]).filter
    (fun r => r.username == u)).length = 1
  rw [List.filter_append]
  have hnil : t.filter (fun r => r.username == u) = [] := by
    rw [List.filter_eq_nil_iff]
    intro r hr
    simp [h r hr]
  rw [hnil]
  simp

/-- C5 (witness): creating dave twice from the empty store. -/
theorem duplicate_create_spec_witness :
    (create_user [] "dave" "a" "e1" false).2 = true
    ∧ (create_user (create_user [] "dave" "a" "e1" false).1 "dave" "b" "e2" false).2 = false
    ∧ (create_user (create_user [] "dave" "a" "e1" false).1 "dave" "b" "e2" false).1
        = (create_user [] "dave" "a" "e1" false).1
    ∧ ((create_user (create_user [] "dave" "a" "e1" false).1 "dave" "b" "e2" false).1.filter
        (fun r => r.username == "dave")).length = 1 :=
  duplicate_create_spec [] "dave" "a" "e1" "b" "e2" false false (by simp)

/-- C6: the injection-attempt username is bound as a literal data value,
so on any store where no user literally has that username,
authentication with it returns false. -/
theorem authenticate_injection :
    ∀ t : Table, (∀ r ∈ t, r.username ≠ injectionName) →
      (authenticate_user t injectionName "anything").2 = false :=
  fun t h => authenticate_absent t injectionName "anything" h

/-- C6 (witness): the injection attempt fails on the store holding only
the admin user. -/
theorem authenticate_injection_witness :
    (authenticate_user (create_user [] "admin" "password123" "admin@example.com" true).1
      injectionName "anything").2 = false :=
  authenticate_injection _ (by decide)

/-- C7: a successful `create_user` appends exactly one record, whose
password column is the lower-case hexadecimal SHA-256 digest of the
UTF-8 encoded plaintext (64 characters, all lower-case hex digits); in
particular the plaintext itself is not what is stored whenever its
length differs from 64. -/
theorem password_hash_spec :
    ∀ (t t2 : Table) (u p e : String) (a : Bool), create_user t u p e a = (t2, true) →
      ∃ r : Row, t2 = t ++ [r] ∧ r.password = hash_password p
        ∧ (hash_password p).length = 64
        ∧ (∀ c ∈ (hash_password p).data, isHexLower c = true)
        ∧ (p.length ≠ 64 → r.password ≠ p) := by
  intro t t2 u p e a hc
  obtain ⟨hany, ht2⟩ := create_user_success t t2 u p e a hc
  refine ⟨⟨newId t, u, hash_password p, e, a⟩, ht2, rfl, hash_password_length p,
    hash_password_isHexLower p, ?_⟩
  intro hlen heq
  exact hlen (heq ▸ hash_password_length p)

/-- C7 (witness): the record created for eve stores the 64-character
lower-case hex digest, not the two-character plaintext. -/
theorem password_hash_spec_witness :
    ∃ r : Row, (create_user [] "eve" "pw" "e" false).1 = [] ++ [r]
      ∧ r.password = hash_password "pw"
      ∧ (hash_password "pw").length = 64
      ∧ (∀ c ∈ (hash_password "pw").data, isHexLower c = true)
      ∧ ("pw".length ≠ 64 → r.password ≠ "pw") :=
  password_hash_spec [] _ "eve" "pw" "e" false rfl

/-- C8: authenticate, get-permissions and find-by-prefix leave the table
unchanged for every store and arguments, while `create_user` does mutate
it (shown on the empty store), making it the only mutating operation. -/
theorem read_only_operations :
    ∀ (t : Table) (u p q : String),
      (authenticate_user t u p).1 = t
      ∧ (get_user_permissions t u).1 = t
      ∧ ( find_users_by_prefix t q).1 = t
      ∧ (create_user [] "a" "p" "e" false).1 ≠ [] := by
  intro t u p q
  refine ⟨rfl, ?_, rfl, ?_⟩
  · rcases hh : (t.filter (fun r => r.username == u)).head? with _ | r <;>
      simp [get_user_permissions, execStmt, qrows, hh]
  · simp [create_user, execStmt]

/-- C9: the table-setup step is idempotent: run against a location that
already holds the users table it changes nothing (and, being a total
function, raises nothing). -/
theorem setup_idempotent :
    ∀ (s : Option Table) (t : Table),
      setup_database (some t) = some t
      ∧ setup_database (setup_database s) = setup_database s := by
  intro s t
  refine ⟨rfl, ?_⟩
  cases s <;> rfl

/-- C10: whenever the INSERT reports an integrity-constraint violation
(of which this schema has exactly one kind, the UNIQUE constraint on
username), `create_user` returns false with the table unchanged instead
of propagating the error; as a total function it can propagate nothing. -/
theorem create_user_integrity :
    ∀ (t : Table) (u p e : String) (a : Bool),
      (execStmt (Stmt.insertUser u (hash_password p) e a) t).2 = QRes.integrityError →
      create_user t u p e a = (t, false) := by
  intro t u p e a h
  by_cases hd : t.any (fun r => r.username == u) = true
  · simp [create_user, execStmt, hd]
  · exfalso
    rw [Bool.not_eq_true] at hd
    simp [execStmt, hd] at h

/-- C10 (witness): inserting dave a second time reports the integrity
violation, and `create_user` maps it to false with the table intact. -/
theorem create_user_integrity_witness :
    create_user (create_user [] "dave2" "p1" "e1" false).1 "dave2" "p2" "e2" false
      = ((create_user [] "dave2" "p1" "e1" false).1, false) :=
  create_user_integrity _ "dave2" "p2" "e2" false (by decide)

end UserManagement
